import Mathlib

/-!
Verification of the arbitrage detection engine
(`app/services/arbitrage_detector.py`, `app/services/background_tasks.py`).

Python `dict`s preserve insertion order, so they are embedded as association
lists (`List (String × _)`).  Decimal prices and timestamps are embedded as
exact rationals.  Python `round(x, 2)` rounds half to even and is embedded as
`round2` below.
-/

namespace ArbEngine

/-- Round a rational to the nearest integer, ties to even: Python `round`. -/
def roundHalfEven (q : ℚ) : ℤ :=
  if q - q.floor < 1/2 then q.floor
  else if 1/2 < q - q.floor then q.floor + 1
  else if q.floor % 2 = 0 then q.floor else q.floor + 1

/-- Python `round(x, 2)`: round to the nearest multiple of 1/100, ties to even. -/
def round2 (q : ℚ) : ℚ := (roundHalfEven (q * 100) : ℚ) / 100

/-- An outcome-name → decimal-odds dict, in insertion order. -/
abbrev OddsMap := List (String × ℚ)

/-- Per-bookmaker value in `market_data` (arbitrage_detector.py lines 96-99):
the outcome→odds dict of the snapshot and its capture timestamp. -/
structure BookEntry where
  odds : OddsMap
  timestamp : ℚ
deriving DecidableEq

/-- The `market_data` dict: bookmaker → BookEntry, in insertion order. -/
abbrev MarketData := List (String × BookEntry)

/-- Python `d.get(k, 0)` on an outcome→odds dict (line 132). -/
def getD0 (m : OddsMap) (k : String) : ℚ :=
  match m.find? (fun p => p.1 == k) with
  | some p => p.2
  | none => 0

/-- Lines 116-118: union of outcome names over all bookmakers.  The source
builds a Python `set`, whose iteration order is unspecified; we fix
first-occurrence order, and none of the verified properties depend on it. -/
def allOutcomes (md : MarketData) : List String :=
  (md.flatMap (fun b => b.2.odds.map Prod.fst)).eraseDups

/-- Lines 127-135: scan the bookmakers in insertion order keeping the strictly
larger price, so on a tie the first-encountered bookmaker is kept. -/
def bestFor (md : MarketData) (outcome : String) : ℚ × Option String :=
  md.foldl
    (fun acc b =>
      let odds := getD0 b.2.odds outcome
      if acc.1 < odds then (odds, some b.1) else acc)
    (0, none)

/-- Lines 127-139: the `(outcome, best_odds, best_bookmaker)` records, kept
only when the best price is positive. -/
def bestEntries (md : MarketData) : List (String × ℚ × String) :=
  (allOutcomes md).filterMap (fun o =>
    let b := bestFor md o
    if 0 < b.1 then some (o, b.1, b.2.getD "") else none)

/-- Lines 145-146: `total_implied_probability`, the sum of `1/odds` over the
best-price entries. -/
def totalImplied (md : MarketData) : ℚ :=
  ((bestEntries md).map (fun e => 1 / e.2.1)).sum

/-- Line 152: `profit_percentage` before rounding. -/
def profitPct (md : MarketData) : ℚ :=
  (1 - totalImplied md) / totalImplied md * 100

/-- Lines 161-163: the rounded stake for one outcome with best odds `odds`. -/
def stakeFor (md : MarketData) (odds : ℚ) : ℚ :=
  round2 ((1 / odds) / totalImplied md * 1000)

/-- Lines 182-189: assign `(outcome ↦ v)` under key `bk` in the nested
bookmaker→outcome→value dict, creating the inner dict if absent. -/
def insertGrouped (acc : List (String × List (String × ℚ))) (bk outcome : String)
    (v : ℚ) : List (String × List (String × ℚ)) :=
  match acc with
  | [] => [(bk, [(outcome, v)])]
  | (b, l) :: rest =>
    if b = bk then (b, l ++ [(outcome, v)]) :: rest
    else (b, l) :: insertGrouped rest bk outcome v

/-- All values of a nested bookmaker→outcome→value dict, flattened. -/
def groupedVals (g : List (String × List (String × ℚ))) : List ℚ :=
  g.flatMap (fun b => b.2.map Prod.snd)

/-- The opportunity dict built at lines 169-191.  The `risk_score` and
`expires_at` fields depend on the wall clock and are modelled separately
(`calcRiskScore`, and `now + 900` seconds in `storeOpportunities`). -/
structure Opportunity where
  event_id : ℕ
  market_type : String
  profit_percentage : ℚ
  total_stake : ℚ
  expected_profit : ℚ
  bookmaker_stakes : List (String × List (String × ℚ))
  bookmaker_odds : List (String × List (String × ℚ))
deriving DecidableEq

/-- Lines 157-191: the opportunity built once every rejection test has
passed. -/
def mkOpportunity (eid : ℕ) (mkt : String) (md : MarketData) : Opportunity :=
  { event_id := eid
    market_type := mkt
    profit_percentage := round2 (profitPct md)
    total_stake := 1000
    expected_profit := round2 (1000 * (profitPct md / 100))
    bookmaker_stakes :=
      (bestEntries md).foldl (fun a e => insertGrouped a e.2.2 e.1 (stakeFor md e.2.1)) []
    bookmaker_odds :=
      (bestEntries md).foldl (fun a e => insertGrouped a e.2.2 e.1 e.2.1) [] }

/-- Shallow embedding of `_calculate_arbitrage` (arbitrage_detector.py lines
112-195).  `minProfit` is `settings.MIN_ARBITRAGE_PERCENTAGE` (default 2.0).
No reachable code path of the function raises, so the `except` arm returning
`None` is dead. -/
def calcArbitrage (minProfit : ℚ) (eid : ℕ) (mkt : String) (md : MarketData) :
    Option Opportunity :=
  if (allOutcomes md).length < 2 then none
  else if (bestEntries md).length ≠ (allOutcomes md).length then none
  else if 1 ≤ totalImplied md then none
  else if profitPct md < minProfit then none
  else some (mkOpportunity eid mkt md)

/-- Scenario A of the spec: two bookmakers, both outcomes at 2.10 from `a`. -/
def mdA : MarketData :=
  [("a", ⟨[("X", 21/10), ("Y", 21/10)], 0⟩), ("b", ⟨[("X", 2), ("Y", 2)], 0⟩)]

/-- The opportunity `_calculate_arbitrage` produces on `mdA`. -/
def oppA : Opportunity :=
  { event_id := 0
    market_type := "h2h"
    profit_percentage := 5
    total_stake := 1000
    expected_profit := 50
    bookmaker_stakes := [("a", [("X", 500), ("Y", 500)])]
    bookmaker_odds := [("a", [("X", 21/10), ("Y", 21/10)])] }

/-- A market whose best-price implied probabilities sum to 20/19 > 1. -/
def mdHigh : MarketData :=
  [("a", ⟨[("X", 19/10), ("Y", 19/10)], 0⟩), ("b", ⟨[("X", 18/10), ("Y", 18/10)], 0⟩)]

/-- A single-outcome market with a huge best price (implied sum 1/100 < 1). -/
def mdSolo : MarketData :=
  [("a", ⟨[("X", 100)], 0⟩), ("b", ⟨[("X", 50)], 0⟩)]

/-- A five-outcome market engineered so the raw stakes are
200.006, 200.006, 200.006, 200.006 and 199.976: every stake rounds up, so
the rounded stakes sum to 1000.02. -/
def mdC2 : MarketData :=
  [("a", ⟨[("o1", 625000/100003), ("o2", 625000/100003), ("o3", 625000/100003),
           ("o4", 625000/100003), ("o5", 156250/24997)], 0⟩),
   ("b", ⟨[("o1", 2), ("o2", 2), ("o3", 2), ("o4", 2), ("o5", 2)], 0⟩)]

/-- A market whose exact profit percentage 320/43 = 7.44186... is not a
two-decimal number, so the stored rounded field differs from it. -/
def mdC6 : MarketData :=
  [("a", ⟨[("X", 21/10), ("Y", 11/5)], 0⟩), ("b", ⟨[("X", 2), ("Y", 2)], 0⟩)]

/-- A two-outcome market where bookmakers `b` (first in insertion order) and
`a` tie at 2.10 on `X` and at 2 on `Y`. -/
def mdTie : MarketData :=
  [("b", ⟨[("X", 21/10), ("Y", 2)], 0⟩), ("a", ⟨[("X", 21/10), ("Y", 2)], 0⟩)]

/-- The same quotes as `mdTie` with the bookmakers in the opposite insertion
order. -/
def mdTieRev : MarketData :=
  [("a", ⟨[("X", 21/10), ("Y", 2)], 0⟩), ("b", ⟨[("X", 21/10), ("Y", 2)], 0⟩)]

/-- Lines 281-286 of `calculate_kelly_stakes`: the assumed true probability
for a leg quoted at decimal odds `odds`.  The implied probability `1/odds`
is inflated by the 5% edge factor, and the guard resetting to 0.95 fires only
when the inflated value exceeds 1 (`if true_prob > 1`), not when it exceeds
0.95. -/
def kellyTrueProb (odds : ℚ) : ℚ :=
  if 1 < (1 / odds) * (21/20) then 19/20 else (1 / odds) * (21/20)

/-- The inputs of `_calculate_risk_score` (lines 197-237), with the wall
clock already folded in: `timeToEventHours` is
`(event.commence_time - utcnow).total_seconds() / 3600` and
`ageMinutesList` the per-bookmaker `(utcnow - timestamp).total_seconds() / 60`
values in iteration order.  `none` models the corresponding sub-signal
computation raising an exception. -/
structure RiskInput where
  timeToEventHours : Option ℚ
  numBookmakers : ℕ
  ageMinutesList : Option (List ℚ)
  sport : String
deriving DecidableEq

/-- Lines 199-231: the additive risk signals before the final clamp. -/
def riskRaw (t : ℚ) (n : ℕ) (ages : List ℚ) (sport : String) : ℚ :=
  let r2 := if t < 1 then 5 + 2 else if t < 24 then 5 + 1 else if 168 < t then 5 + 1 else 5
  let r3 := if 4 ≤ n then r2 - 1 else if n = 2 then r2 + 1 else r2
  let oldest := ages.foldl max 0
  let r4 := if 10 < oldest then r3 + 1 else r3
  let r5 := if 30 < oldest then r4 + 2 else r4
  if sport = "tennis" ∨ sport = "basketball_nba" then r5 + 1/2 else r5

/-- Shallow embedding of `_calculate_risk_score` (lines 197-237): clamp the
raw score into [1, 10] (line 233), or return the base score 5.0 when a
sub-signal computation raises (lines 235-237). -/
def calcRiskScore (inp : RiskInput) : ℚ :=
  match inp.timeToEventHours, inp.ageMinutesList with
  | some t, some ages => min (max (riskRaw t inp.numBookmakers ages inp.sport) 1) 10
  | _, _ => 5

/-- A row of the `arbitrage_opportunities` table, with the fields the
deduplication query and the cleanup sweep read or write.  Timestamps are
seconds as rationals. -/
structure StoredOpp where
  event_id : ℕ
  market_type : String
  status : String
  detected_at : ℚ
  expires_at : ℚ
deriving DecidableEq

/-- The status/recency part of the duplicate query (lines 250-251): status in
{detected, analyzed} and `detected_at > utcnow() - timedelta(hours=1)`. -/
def activeFresh (now : ℚ) (r : StoredOpp) : Bool :=
  (r.status == "detected" || r.status == "analyzed") &&
    decide (now - 3600 < r.detected_at)

/-- The full duplicate query of `_store_opportunities` (lines 244-254). -/
def matchesExisting (now : ℚ) (eid : ℕ) (mkt : String) (r : StoredOpp) : Bool :=
  (eid == r.event_id) && (mkt == r.market_type) && activeFresh now r

/-- The row `ArbitrageOpportunity(**opp_data)` inserted at lines 260-261:
`status` defaults to "detected" and `detected_at` to the current time
(models/events.py lines 58-59); `expires_at` is detection time + 15 minutes
(arbitrage_detector.py line 178). -/
def mkRow (now : ℚ) (c : Opportunity) : StoredOpp :=
  { event_id := c.event_id
    market_type := c.market_type
    status := "detected"
    detected_at := now
    expires_at := now + 900 }

/-- Shallow embedding of `_store_opportunities` (lines 239-268): for each
candidate in order, insert it unless the duplicate query finds a fresh
detected/analyzed row for the same (event, market).  The query runs on the
session, which sees the rows added earlier in the same batch. -/
def storeOpportunities (now : ℚ) (db : List StoredOpp) (cands : List Opportunity) :
    List StoredOpp :=
  cands.foldl
    (fun acc c =>
      if acc.any (matchesExisting now c.event_id c.market_type) then acc
      else acc ++ [mkRow now c])
    db

/-- No two rows of the store are simultaneously fresh detected/analyzed
duplicates for the same (event, market). -/
def dupFree (now : ℚ) : List StoredOpp → Bool
  | [] => true
  | r :: rest =>
    rest.all (fun s => !((r.event_id == s.event_id) && (r.market_type == s.market_type)
      && activeFresh now r && activeFresh now s)) && dupFree now rest

/-- The WHERE clause of the cleanup UPDATE (background_tasks.py lines
131-134): `expires_at <= utcnow()` and status in {detected, analyzed}. -/
def shouldExpire (now : ℚ) (r : StoredOpp) : Bool :=
  decide (r.expires_at ≤ now) && (r.status == "detected" || r.status == "analyzed")

/-- Shallow embedding of the UPDATE in `_cleanup_expired_opportunities`
(background_tasks.py lines 128-140): set status to "expired" on every
matching row, touching nothing else. -/
def cleanupExpired (now : ℚ) (db : List StoredOpp) : List StoredOpp :=
  db.map (fun r => if shouldExpire now r then { r with status := "expired" } else r)

/-- Python dict assignment `m[k] = v`: overwrite in place, or append a new
key at the end. -/
def setKey {α : Type} (m : List (String × α)) (k : String) (v : α) :
    List (String × α) :=
  match m with
  | [] => [(k, v)]
  | (k0, v0) :: rest => if k0 = k then (k0, v) :: rest else (k0, v0) :: setKey rest k v

/-- Python `m[k]` with a default when `k` is absent. -/
def lookupD {α : Type} (m : List (String × α)) (k : String) (d : α) : α :=
  match m.find? (fun p => p.1 == k) with
  | some p => p.2
  | none => d

/-- One row of `odds_snapshots` as read by `_analyze_event_for_arbitrage`:
the bookmaker, the market→outcome→odds JSON payload, and the capture time. -/
structure Snapshot where
  bookmaker : String
  odds_data : List (String × OddsMap)
  captured_at : ℚ
deriving DecidableEq

/-- Lines 89-99: group the snapshots by market type then bookmaker
(`odds_by_market[market_type][snapshot.bookmaker] = {...}`). -/
def groupOdds (snaps : List Snapshot) : List (String × MarketData) :=
  snaps.foldl
    (fun acc s =>
      s.odds_data.foldl
        (fun acc2 mo =>
          setKey acc2 mo.1 (setKey (lookupD acc2 mo.1 []) s.bookmaker ⟨mo.2, s.captured_at⟩))
        acc)
    []

/-- Shallow embedding of the pure part of `_analyze_event_for_arbitrage`
(lines 66-110): bail out with no candidates when fewer than two snapshots
exist, then run the calculator on every market with at least two contributing
bookmakers (line 103). -/
def analyzeEvent (minProfit : ℚ) (eid : ℕ) (snaps : List Snapshot) :
    List Opportunity :=
  if snaps.length < 2 then []
  else
    (groupOdds snaps).foldl
      (fun acc m =>
        if 2 ≤ m.2.length then
          match calcArbitrage minProfit eid m.1 m.2 with
          | some o => acc ++ [o]
          | none => acc
        else acc)
      []

/-- Two snapshots giving the `h2h` market two bookmakers and the `solo`
market only one. -/
def snapsW : List Snapshot :=
  [⟨"a", [("h2h", [("X", 3), ("Y", 3)]), ("solo", [("X", 5)])], 0⟩,
   ⟨"b", [("h2h", [("X", 3), ("Y", 3)])], 0⟩]

/-- The single opportunity `analyzeEvent` produces on `snapsW` (from the
`h2h` market). -/
def oppH : Opportunity :=
  { event_id := 0
    market_type := "h2h"
    profit_percentage := 50
    total_stake := 1000
    expected_profit := 500
    bookmaker_stakes := [("a", [("X", 500), ("Y", 500)])]
    bookmaker_odds := [("a", [("X", 3), ("Y", 3)])] }

/-! ## Rounding lemmas -/

lemma ratFloor_eq_intFloor (q : ℚ) : (q.floor : ℤ) = ⌊q⌋ :=
  (Rat.floor_def' q).trans Rat.floor_def.symm

lemma roundHalfEven_abs_le (q : ℚ) : |(roundHalfEven q : ℚ) - q| ≤ 1/2 := by
  unfold roundHalfEven
  rw [ratFloor_eq_intFloor]
  have h1 : (⌊q⌋ : ℚ) ≤ q := Int.floor_le q
  have h2 : q < (⌊q⌋ : ℚ) + 1 := Int.lt_floor_add_one q
  split_ifs with hlt hgt hev
  · rw [abs_le]; constructor <;> linarith
  · rw [abs_le]; push_cast; constructor <;> linarith
  · rw [abs_le]; constructor <;> linarith
  · rw [abs_le]; push_cast; constructor <;> linarith

lemma round2_abs_le (q : ℚ) : |round2 q - q| ≤ 1/200 := by
  have h := roundHalfEven_abs_le (q * 100)
  have e : round2 q - q = ((roundHalfEven (q * 100) : ℚ) - q * 100) / 100 := by
    unfold round2; ring
  rw [e, abs_div]
  rw [show |(100 : ℚ)| = 100 by norm_num]
  rw [div_le_iff₀ (by norm_num)]
  linarith

lemma abs_sum_map_round2_sub (l : List ℚ) :
    |(l.map round2).sum - l.sum| ≤ (l.length : ℚ) * (1/200) := by
  induction l with
  | nil => simp
  | cons x xs ih =>
    simp only [List.map_cons, List.sum_cons, List.length_cons]
    have h1 := round2_abs_le x
    have tri : |round2 x + (xs.map round2).sum - (x + xs.sum)|
        ≤ |round2 x - x| + |(xs.map round2).sum - xs.sum| := by
      have := abs_add (round2 x - x) ((xs.map round2).sum - xs.sum)
      have e : round2 x + (xs.map round2).sum - (x + xs.sum)
          = (round2 x - x) + ((xs.map round2).sum - xs.sum) := by ring
      rw [e]; exact this
    push_cast
    calc |round2 x + (xs.map round2).sum - (x + xs.sum)|
        ≤ |round2 x - x| + |(xs.map round2).sum - xs.sum| := tri
      _ ≤ 1/200 + (xs.length : ℚ) * (1/200) := add_le_add h1 ih
      _ = ((xs.length : ℚ) + 1) * (1/200) := by ring

/-! ## Structure of the calculator's result -/

lemma calcArbitrage_some_iff (minProfit : ℚ) (eid : ℕ) (mkt : String)
    (md : MarketData) (opp : Opportunity)
    (h : calcArbitrage minProfit eid mkt md = some opp) :
    2 ≤ (allOutcomes md).length ∧
    (bestEntries md).length = (allOutcomes md).length ∧
    totalImplied md < 1 ∧ minProfit ≤ profitPct md ∧
    opp = mkOpportunity eid mkt md := by
  unfold calcArbitrage at h
  split_ifs at h with h1 h2 h3 h4
  exact ⟨by omega, by omega, lt_of_not_le h3, le_of_not_lt h4, (Option.some.inj h).symm⟩

lemma bestEntries_odds_pos (md : MarketData) :
    ∀ e ∈ bestEntries md, 0 < e.2.1 := by
  intro e he
  unfold bestEntries at he
  rw [List.mem_filterMap] at he
  obtain ⟨o, _, ho⟩ := he
  simp only at ho
  split_ifs at ho with hp
  · cases ho; exact hp

lemma totalImplied_pos (md : MarketData) (hne : bestEntries md ≠ []) :
    0 < totalImplied md := by
  unfold totalImplied
  apply List.sum_pos
  · intro x hx
    rw [List.mem_map] at hx
    obtain ⟨e, he, rfl⟩ := hx
    exact one_div_pos.mpr (bestEntries_odds_pos md e he)
  · simpa using hne

/-! ## Sums over the nested bookmaker dicts -/

lemma sum_map_groupedVals_insert (g : ℚ → ℚ) (acc : List (String × List (String × ℚ)))
    (bk o : String) (v : ℚ) :
    ((groupedVals (insertGrouped acc bk o v)).map g).sum
      = ((groupedVals acc).map g).sum + g v := by
  induction acc with
  | nil => simp [insertGrouped, groupedVals]
  | cons p rest ih =>
    obtain ⟨b, l⟩ := p
    by_cases hb : b = bk
    · simp only [insertGrouped, if_pos hb, groupedVals, List.flatMap_cons,
        List.map_append, List.sum_append, List.map_map]
      simp [List.map_append, List.sum_append]
      ring
    · simp only [insertGrouped, if_neg hb, groupedVals, List.flatMap_cons,
        List.map_append, List.sum_append] at ih ⊢
      rw [ih]
      ring

lemma sum_map_groupedVals_foldl {α : Type} (g : ℚ → ℚ) (bk oc : α → String)
    (f : α → ℚ) (l : List α) (acc : List (String × List (String × ℚ))) :
    ((groupedVals (l.foldl (fun a x => insertGrouped a (bk x) (oc x) (f x)) acc)).map g).sum
      = ((groupedVals acc).map g).sum + (l.map (fun x => g (f x))).sum := by
  induction l generalizing acc with
  | nil => simp
  | cons x xs ih =>
    simp only [List.foldl_cons, List.map_cons, List.sum_cons]
    rw [ih, sum_map_groupedVals_insert]
    ring

lemma sum_groupedVals_stakes (md : MarketData) :
    (groupedVals (mkOpportunity 0 "" md).bookmaker_stakes).sum
      = ((bestEntries md).map (fun e => stakeFor md e.2.1)).sum := by
  have h := sum_map_groupedVals_foldl id (fun e => e.2.2) (fun e => e.1)
    (fun e => stakeFor md e.2.1) (bestEntries md) []
  simpa [mkOpportunity, groupedVals, List.map_id] using h

/-! ## Claim theorems -/

/-- C1: if the sum of best-price implied probabilities of a market is at
least 1, `_calculate_arbitrage` returns `None`. -/
theorem no_opportunity_of_totalImplied_ge_one (minProfit : ℚ) (eid : ℕ)
    (mkt : String) (md : MarketData) (h : 1 ≤ totalImplied md) :
    calcArbitrage minProfit eid mkt md = none := by
  unfold calcArbitrage
  split_ifs <;> rfl

unseal Rat.add Rat.mul Rat.sub Rat.inv in
/-- C1 witness: a concrete market with implied sum 20/19 ≥ 1 is rejected. -/
theorem no_opportunity_of_totalImplied_ge_one_inst :
    1 ≤ totalImplied mdHigh ∧ calcArbitrage 2 0 "h2h" mdHigh = none :=
  ⟨by decide, no_opportunity_of_totalImplied_ge_one 2 0 "h2h" mdHigh (by decide)⟩

/-- C10: a market whose outcome union has fewer than two names is rejected
by `_calculate_arbitrage`, whatever its prices. -/
theorem single_outcome_no_opportunity (minProfit : ℚ) (eid : ℕ) (mkt : String)
    (md : MarketData) (h : (allOutcomes md).length < 2) :
    calcArbitrage minProfit eid mkt md = none := by
  unfold calcArbitrage
  rw [if_pos h]

unseal Rat.add Rat.mul Rat.sub Rat.inv in
/-- C10 witness: a single-outcome market with implied sum 1/100 < 1 is
still rejected. -/
theorem single_outcome_no_opportunity_inst :
    (allOutcomes mdSolo).length < 2 ∧ totalImplied mdSolo < 1 ∧
    calcArbitrage 2 0 "h2h" mdSolo = none :=
  ⟨by decide, by decide, single_outcome_no_opportunity 2 0 "h2h" mdSolo (by decide)⟩

unseal Rat.add Rat.mul Rat.sub Rat.inv in
/-- C2 counterexample: on the five-outcome market `mdC2` the calculator
accepts an opportunity whose rounded stakes sum to 1000.02, which is more
than 0.01 away from the notional total stake 1000. -/
theorem stakes_sum_tolerance_fails_five_outcomes :
    (calcArbitrage 2 0 "h2h" mdC2).map
        (fun o => (groupedVals o.bookmaker_stakes).sum) = some (50001/50) ∧
    ¬ |(50001 : ℚ)/50 - 1000| ≤ 1/100 := by
  constructor
  · decide
  · rw [show (50001 : ℚ)/50 - 1000 = 1/50 by norm_num]
    rw [abs_of_pos (by norm_num)]
    norm_num

/-- C2 amended: the sum of the rounded per-outcome stakes of an accepted
opportunity differs from `total_stake` by at most 0.005 per outcome; the
fixed ±0.01 tolerance is guaranteed only for two-outcome markets. -/
theorem stakes_sum_within_half_cent_per_outcome (minProfit : ℚ) (eid : ℕ)
    (mkt : String) (md : MarketData) (opp : Opportunity)
    (h : calcArbitrage minProfit eid mkt md = some opp) :
    |(groupedVals opp.bookmaker_stakes).sum - opp.total_stake|
        ≤ ((allOutcomes md).length : ℚ) * (1/200) ∧
    ((allOutcomes md).length = 2 →
      |(groupedVals opp.bookmaker_stakes).sum - opp.total_stake| ≤ 1/100) := by
  obtain ⟨hn2, hlen, hT1, hmin, hopp⟩ := calcArbitrage_some_iff minProfit eid mkt md opp h
  have hne : bestEntries md ≠ [] := by
    intro hnil
    rw [hnil] at hlen
    simp at hlen
    omega
  have hTpos : 0 < totalImplied md := totalImplied_pos md hne
  have hstakes : opp.bookmaker_stakes = (mkOpportunity 0 "" md).bookmaker_stakes := by
    rw [hopp]; rfl
  have htot : opp.total_stake = 1000 := by rw [hopp]; rfl
  have hsum : (groupedVals opp.bookmaker_stakes).sum
      = ((bestEntries md).map (fun e => stakeFor md e.2.1)).sum := by
    rw [hstakes, sum_groupedVals_stakes]
  have hraw : ((bestEntries md).map (fun e => (1 / e.2.1) / totalImplied md * 1000)).sum
      = 1000 := by
    have e1 : ((bestEntries md).map (fun e => (1 / e.2.1) / totalImplied md * 1000)).sum
        = ((bestEntries md).map (fun e => (1 / e.2.1) * (1000 / totalImplied md))).sum := by
      congr 1
      apply List.map_congr_left
      intro e _
      ring
    rw [e1, List.sum_map_mul_right]
    show totalImplied md * (1000 / totalImplied md) = 1000
    field_simp
  have hcomp : ((bestEntries md).map (fun e => stakeFor md e.2.1)).sum
      = (((bestEntries md).map (fun e => (1 / e.2.1) / totalImplied md * 1000)).map round2).sum := by
    rw [List.map_map]
    rfl
  have hbound := abs_sum_map_round2_sub
    ((bestEntries md).map (fun e => (1 / e.2.1) / totalImplied md * 1000))
  rw [hraw, List.length_map, hlen] at hbound
  have hmain : |(groupedVals opp.bookmaker_stakes).sum - opp.total_stake|
      ≤ ((allOutcomes md).length : ℚ) * (1/200) := by
    rw [hsum, hcomp, htot]
    exact hbound
  refine ⟨hmain, fun h2 => ?_⟩
  rw [h2] at hmain
  calc |(groupedVals opp.bookmaker_stakes).sum - opp.total_stake|
      ≤ (2 : ℚ) * (1/200) := by exact_mod_cast hmain
    _ = 1/100 := by norm_num

unseal Rat.add Rat.mul Rat.sub Rat.inv in
/-- C2 amended witness: scenario A (both outcomes at 2.10) is accepted and
its rounded stakes sum to exactly 1000, within the bound. -/
theorem stakes_sum_within_half_cent_per_outcome_inst :
    calcArbitrage 2 0 "h2h" mdA = some oppA ∧
    |(groupedVals oppA.bookmaker_stakes).sum - oppA.total_stake|
        ≤ ((allOutcomes mdA).length : ℚ) * (1/200) :=
  ⟨by decide,
    (stakes_sum_within_half_cent_per_outcome 2 0 "h2h" mdA oppA (by decide)).1⟩

unseal Rat.add Rat.mul Rat.sub Rat.inv in
/-- C6 counterexample: on `mdC6` the stored `profit_percentage` is the
rounded value 7.44, while the exact value recomputed from the returned
`bookmaker_odds` (implied sum 215/231) is 320/43 = 7.44186..., so the two
are not equal. -/
theorem profit_field_ne_exact_formula :
    (calcArbitrage 2 0 "h2h" mdC6).map
        (fun o => (o.profit_percentage,
          ((groupedVals o.bookmaker_odds).map (fun v => 1 / v)).sum))
      = some (186/25, 215/231) ∧
    (186 : ℚ)/25 ≠ (1 / (215/231 : ℚ) - 1) * 100 := by
  constructor
  · decide
  · intro hcontra
    rw [show (1 / (215/231 : ℚ) - 1) * 100 = 320/43 by norm_num] at hcontra
    norm_num at hcontra

/-- C6 amended: the stored `profit_percentage` equals
`(1/total_implied − 1) × 100` rounded to two decimals, with `total_implied`
recomputed independently from the returned `bookmaker_odds`. -/
theorem profit_field_eq_rounded_formula (minProfit : ℚ) (eid : ℕ)
    (mkt : String) (md : MarketData) (opp : Opportunity)
    (h : calcArbitrage minProfit eid mkt md = some opp) :
    opp.profit_percentage
      = round2 ((1 / ((groupedVals opp.bookmaker_odds).map (fun v => 1 / v)).sum - 1) * 100) := by
  obtain ⟨hn2, hlen, hT1, hmin, hopp⟩ := calcArbitrage_some_iff minProfit eid mkt md opp h
  have hne : bestEntries md ≠ [] := by
    intro hnil
    rw [hnil] at hlen
    simp at hlen
    omega
  have hTpos : 0 < totalImplied md := totalImplied_pos md hne
  have hrec : ((groupedVals opp.bookmaker_odds).map (fun v => 1 / v)).sum
      = totalImplied md := by
    rw [hopp]
    show ((groupedVals ((bestEntries md).foldl
        (fun a e => insertGrouped a e.2.2 e.1 e.2.1) [])).map (fun v => 1 / v)).sum
      = totalImplied md
    rw [sum_map_groupedVals_foldl (fun v => 1 / v) (fun e => e.2.2) (fun e => e.1)
      (fun e => e.2.1) (bestEntries md) []]
    simp [groupedVals, totalImplied]
  rw [hrec, hopp]
  show round2 (profitPct md) = round2 ((1 / totalImplied md - 1) * 100)
  congr 1
  unfold profitPct
  field_simp

unseal Rat.add Rat.mul Rat.sub Rat.inv in
/-- C6 amended witness: on scenario A the stored profit percentage 5 equals
the rounded recomputed formula value. -/
theorem profit_field_eq_rounded_formula_inst :
    calcArbitrage 2 0 "h2h" mdA = some oppA ∧
    oppA.profit_percentage
      = round2 ((1 / ((groupedVals oppA.bookmaker_odds).map (fun v => 1 / v)).sum - 1) * 100) :=
  ⟨by decide, profit_field_eq_rounded_formula 2 0 "h2h" mdA oppA (by decide)⟩

unseal Rat.add Rat.mul Rat.sub Rat.inv in
/-- C3: on a tie at the maximum price the code keeps the bookmaker first
encountered in the input mapping's insertion order, not the lexicographically
smallest one.  With `b` inserted before `a` and both quoting 2.10 on `X`
(and 2 on `Y`), the selection is `b`, it flips to `a` when the insertion
order is reversed, and the accepted opportunity attributes every outcome to
`b`. -/
theorem tie_break_follows_insertion_order :
    bestFor mdTie "X" = (21/10, some "b") ∧
    bestFor mdTieRev "X" = (21/10, some "a") ∧
    (calcArbitrage 2 0 "h2h" mdTie).map (fun o => o.bookmaker_odds)
      = some [("b", [("X", 21/10), ("Y", 2)])] :=
  ⟨by decide, by decide, by decide⟩

unseal Rat.add Rat.mul Rat.sub Rat.inv in
/-- C4 counterexample: at odds 1.05 the inflated probability is exactly 1,
the `> 1` guard does not fire, and the Kelly formula runs with an assumed
true probability of 1 > 0.95. -/
theorem kellyTrueProb_exceeds_cap :
    kellyTrueProb (21/20) = 1 ∧ ¬ kellyTrueProb (21/20) ≤ 19/20 :=
  ⟨by decide, by decide⟩

/-- C4 amended: the assumed true probability is `(1/odds) × 1.05` whenever
that product is at most 1 — even when it lies in (0.95, 1] — and is reset
to 0.95 only when the product exceeds 1; it therefore never exceeds 1, but
can exceed 0.95. -/
theorem kellyTrueProb_le_one (odds : ℚ) (_h : 0 < odds) :
    kellyTrueProb odds ≤ 1 ∧
    ((1 / odds) * (21/20) ≤ 1 → kellyTrueProb odds = (1 / odds) * (21/20)) ∧
    (1 < (1 / odds) * (21/20) → kellyTrueProb odds = 19/20) := by
  unfold kellyTrueProb
  split_ifs with hgt
  · exact ⟨by norm_num, fun hle => absurd hgt (not_lt.mpr hle), fun _ => rfl⟩
  · exact ⟨not_lt.mp hgt, fun _ => rfl, fun hc => absurd hc hgt⟩

unseal Rat.add Rat.mul Rat.sub Rat.inv in
/-- C4 amended witness: at odds 1.1 the assumed true probability is
21/22 = 0.9545... ≤ 1 (yet above the 0.95 cap the spec asks for). -/
theorem kellyTrueProb_le_one_inst :
    (0 : ℚ) < 11/10 ∧ kellyTrueProb (11/10) ≤ 1 ∧ kellyTrueProb (11/10) = 21/22 :=
  ⟨by norm_num, (kellyTrueProb_le_one (11/10) (by norm_num)).1, by decide⟩

/-- C5: the risk score is always within [1, 10] — for any time to event
(including negative), any bookmaker count (including zero), any snapshot
ages and any sport — and when a sub-signal computation raises, the score is
exactly the base 5.0. -/
theorem riskScore_bounds_and_fallback (inp : RiskInput) :
    1 ≤ calcRiskScore inp ∧ calcRiskScore inp ≤ 10 ∧
    (inp.timeToEventHours = none ∨ inp.ageMinutesList = none →
      calcRiskScore inp = 5) := by
  obtain ⟨ht, n, ha, sport⟩ := inp
  cases ht with
  | none => exact ⟨by norm_num [calcRiskScore], by norm_num [calcRiskScore], fun _ => rfl⟩
  | some t =>
    cases ha with
    | none => exact ⟨by norm_num [calcRiskScore], by norm_num [calcRiskScore], fun _ => rfl⟩
    | some ages =>
      refine ⟨?_, ?_, ?_⟩
      · show 1 ≤ min (max (riskRaw t n ages sport) 1) 10
        exact le_min (le_max_right _ 1) (by norm_num)
      · show min (max (riskRaw t n ages sport) 1) 10 ≤ 10
        exact min_le_right _ 10
      · rintro (hc | hc) <;> cases hc

/-- C5 witness: a malformed input (the timing computation raises) scores
exactly 5, and an extreme well-formed input (event 5 hours in the past, zero
bookmakers) still lands in [1, 10]. -/
theorem riskScore_bounds_and_fallback_inst :
    calcRiskScore ⟨none, 0, none, ""⟩ = 5 ∧
    1 ≤ calcRiskScore ⟨some (-5), 0, some [], "x"⟩ ∧
    calcRiskScore ⟨some (-5), 0, some [], "x"⟩ ≤ 10 :=
  ⟨(riskScore_bounds_and_fallback ⟨none, 0, none, ""⟩).2.2 (Or.inl rfl),
   (riskScore_bounds_and_fallback ⟨some (-5), 0, some [], "x"⟩).1,
   (riskScore_bounds_and_fallback ⟨some (-5), 0, some [], "x"⟩).2.1⟩

/-! ## The deduplicating store -/

lemma storeOpportunities_nil (now : ℚ) (db : List StoredOpp) :
    storeOpportunities now db [] = db := rfl

lemma storeOpportunities_cons (now : ℚ) (db : List StoredOpp) (c : Opportunity)
    (cs : List Opportunity) :
    storeOpportunities now db (c :: cs)
      = storeOpportunities now
          (if db.any (matchesExisting now c.event_id c.market_type) then db
           else db ++ [mkRow now c]) cs := rfl

lemma storeOpportunities_append (now : ℚ) (cands : List Opportunity) :
    ∀ db : List StoredOpp, ∃ l, storeOpportunities now db cands = db ++ l := by
  induction cands with
  | nil => intro db; exact ⟨[], by simp [storeOpportunities_nil]⟩
  | cons c cs ih =>
    intro db
    rw [storeOpportunities_cons]
    by_cases hm : db.any (matchesExisting now c.event_id c.market_type) = true
    · rw [if_pos hm]
      exact ih db
    · rw [if_neg hm]
      obtain ⟨l, hl⟩ := ih (db ++ [mkRow now c])
      exact ⟨mkRow now c :: l, by rw [hl, List.append_assoc]; rfl⟩

lemma mkRow_activeFresh (now : ℚ) (c : Opportunity) :
    activeFresh now (mkRow now c) = true := by
  simp only [activeFresh, mkRow, Bool.and_eq_true, Bool.or_eq_true, beq_iff_eq,
    decide_eq_true_eq]
  exact ⟨Or.inl trivial, by linarith⟩

lemma no_match_all_noConflict (now : ℚ) (c : Opportunity) (db : List StoredOpp)
    (h : db.any (matchesExisting now c.event_id c.market_type) = false) :
    db.all (fun r => !((r.event_id == (mkRow now c).event_id)
      && (r.market_type == (mkRow now c).market_type)
      && activeFresh now r && activeFresh now (mkRow now c))) = true := by
  rw [List.all_eq_true]
  intro r hr
  have hr2 : matchesExisting now c.event_id c.market_type r = false := by
    by_contra hcon
    rw [Bool.not_eq_false] at hcon
    have hany : db.any (matchesExisting now c.event_id c.market_type) = true :=
      List.any_eq_true.mpr ⟨r, hr, hcon⟩
    rw [h] at hany
    cases hany
  show (!(_ && _ && _ && _)) = true
  rw [Bool.not_eq_true']
  simp only [mkRow]
  cases hb1 : (r.event_id == c.event_id) with
  | false => simp [hb1]
  | true =>
    cases hb2 : (r.market_type == c.market_type) with
    | false => simp [hb1, hb2]
    | true =>
      cases hb3 : activeFresh now r with
      | false => simp [hb1, hb2, hb3]
      | true =>
        exfalso
        have e1 : (c.event_id == r.event_id) = true :=
          beq_iff_eq.mpr ((beq_iff_eq.mp hb1).symm)
        have e2 : (c.market_type == r.market_type) = true :=
          beq_iff_eq.mpr ((beq_iff_eq.mp hb2).symm)
        rw [matchesExisting, e1, e2, hb3] at hr2
        simp at hr2

lemma dupFree_append_one (now : ℚ) (row : StoredOpp) :
    ∀ db : List StoredOpp, dupFree now db = true →
    db.all (fun r => !((r.event_id == row.event_id) && (r.market_type == row.market_type)
      && activeFresh now r && activeFresh now row)) = true →
    dupFree now (db ++ [row]) = true := by
  intro db
  induction db with
  | nil => intro _ _; simp [dupFree]
  | cons r rest ih =>
    intro hd hall
    rw [List.all_cons, Bool.and_eq_true] at hall
    obtain ⟨hrrow, hallrest⟩ := hall
    rw [show (r :: rest) ++ [row] = r :: (rest ++ [row]) from rfl]
    rw [dupFree, Bool.and_eq_true] at hd ⊢
    obtain ⟨hr, hrest⟩ := hd
    refine ⟨?_, ih hrest hallrest⟩
    rw [List.all_append, Bool.and_eq_true]
    exact ⟨hr, by simpa using hrrow⟩

lemma storeOpportunities_dupFree (now : ℚ) (cands : List Opportunity) :
    ∀ db : List StoredOpp, dupFree now db = true →
    dupFree now (storeOpportunities now db cands) = true := by
  induction cands with
  | nil => intro db h; rw [storeOpportunities_nil]; exact h
  | cons c cs ih =>
    intro db h
    rw [storeOpportunities_cons]
    by_cases hm : db.any (matchesExisting now c.event_id c.market_type) = true
    · rw [if_pos hm]
      exact ih db h
    · rw [if_neg hm]
      rw [Bool.not_eq_true] at hm
      exact ih _ (dupFree_append_one now (mkRow now c) db h
        (no_match_all_noConflict now c db hm))

/-- C7: starting from a store with no fresh detected/analyzed duplicate for
any (event, market), `_store_opportunities` preserves that invariant — a
candidate whose (event, market) already has a fresh detected/analyzed row is
discarded rather than inserted — and it only appends: every pre-existing row
survives unchanged in place. -/
theorem store_dedup_and_frame (now : ℚ) (db : List StoredOpp)
    (cands : List Opportunity) (h : dupFree now db = true) :
    dupFree now (storeOpportunities now db cands) = true ∧
    (storeOpportunities now db cands).take db.length = db := by
  refine ⟨storeOpportunities_dupFree now cands db h, ?_⟩
  obtain ⟨l, hl⟩ := storeOpportunities_append now cands db
  rw [hl, List.take_left]

unseal Rat.add Rat.mul Rat.sub Rat.inv in
/-- C7 witness: with one fresh detected row for (event 1, "h2h") in the
store, a new candidate for the same (event, market) is discarded: the store
is unchanged and still duplicate-free. -/
theorem store_dedup_and_frame_inst :
    dupFree 10000 [⟨1, "h2h", "detected", 9000, 9900⟩] = true ∧
    (dupFree 10000 (storeOpportunities 10000 [⟨1, "h2h", "detected", 9000, 9900⟩]
        [⟨1, "h2h", 5, 1000, 50, [], []⟩]) = true ∧
      (storeOpportunities 10000 [⟨1, "h2h", "detected", 9000, 9900⟩]
        [⟨1, "h2h", 5, 1000, 50, [], []⟩]).take 1 = [⟨1, "h2h", "detected", 9000, 9900⟩]) ∧
    storeOpportunities 10000 [⟨1, "h2h", "detected", 9000, 9900⟩]
        [⟨1, "h2h", 5, 1000, 50, [], []⟩]
      = [⟨1, "h2h", "detected", 9000, 9900⟩] :=
  ⟨by decide,
   store_dedup_and_frame 10000 [⟨1, "h2h", "detected", 9000, 9900⟩]
     [⟨1, "h2h", 5, 1000, 50, [], []⟩] (by decide),
   by decide⟩

/-! ## Market grouping and the two-bookmaker filter -/

lemma calcArbitrage_market_type (minProfit : ℚ) (eid : ℕ) (mkt : String)
    (md : MarketData) (opp : Opportunity)
    (h : calcArbitrage minProfit eid mkt md = some opp) :
    opp.market_type = mkt := by
  obtain ⟨_, _, _, _, hopp⟩ := calcArbitrage_some_iff minProfit eid mkt md opp h
  rw [hopp]
  rfl

lemma setKey_keys {α : Type} (m : List (String × α)) (k : String) (v : α) :
    (setKey m k v).map Prod.fst
      = if k ∈ m.map Prod.fst then m.map Prod.fst else m.map Prod.fst ++ [k] := by
  induction m with
  | nil => simp [setKey]
  | cons p rest ih =>
    obtain ⟨k0, v0⟩ := p
    by_cases hk : k0 = k
    · subst hk
      simp [setKey]
    · simp only [setKey, if_neg hk, List.map_cons, ih, List.mem_cons]
      by_cases hmem : k ∈ rest.map Prod.fst
      · rw [if_pos hmem, if_pos (Or.inr hmem)]
      · rw [if_neg hmem, if_neg (fun hor => hor.elim (fun e => hk e.symm) hmem)]
        rfl

lemma nodup_keys_setKey {α : Type} (m : List (String × α)) (k : String) (v : α)
    (h : (m.map Prod.fst).Nodup) : ((setKey m k v).map Prod.fst).Nodup := by
  rw [setKey_keys]
  split_ifs with hm
  · exact h
  · rw [List.nodup_append]
    refine ⟨h, List.nodup_singleton k, ?_⟩
    intro a ha hb
    rw [List.mem_singleton] at hb
    subst hb
    exact hm ha

lemma nodupKeys_foldl_setKey {α β : Type} (key : β → String)
    (val : List (String × α) → β → α) (l : List β) :
    ∀ acc : List (String × α), (acc.map Prod.fst).Nodup →
    ((l.foldl (fun a x => setKey a (key x) (val a x)) acc).map Prod.fst).Nodup := by
  induction l with
  | nil => intro acc h; exact h
  | cons x xs ih => intro acc h; exact ih _ (nodup_keys_setKey _ _ _ h)

lemma groupOdds_keys_nodup (snaps : List Snapshot) :
    ((groupOdds snaps).map Prod.fst).Nodup := by
  suffices haux : ∀ (ss : List Snapshot) (acc : List (String × MarketData)),
      (acc.map Prod.fst).Nodup →
      ((ss.foldl (fun acc s => s.odds_data.foldl
        (fun acc2 mo => setKey acc2 mo.1
          (setKey (lookupD acc2 mo.1 []) s.bookmaker ⟨mo.2, s.captured_at⟩)) acc) acc).map
        Prod.fst).Nodup by
    exact haux snaps [] (by simp)
  intro ss
  induction ss with
  | nil => intro acc h; exact h
  | cons s rest ih =>
    intro acc h
    exact ih _ (nodupKeys_foldl_setKey (fun mo => mo.1)
      (fun acc2 mo => setKey (lookupD acc2 mo.1 []) s.bookmaker ⟨mo.2, s.captured_at⟩)
      s.odds_data acc h)

lemma nodup_keys_inj {α : Type} {l : List (String × α)}
    (h : (l.map Prod.fst).Nodup) {k : String} {a b : α}
    (ha : (k, a) ∈ l) (hb : (k, b) ∈ l) : a = b := by
  induction l with
  | nil => cases ha
  | cons p rest ih =>
    rw [List.map_cons, List.nodup_cons] at h
    rcases List.mem_cons.mp ha with ha1 | ha1 <;> rcases List.mem_cons.mp hb with hb1 | hb1
    · exact congrArg Prod.snd (ha1.trans hb1.symm)
    · exfalso
      apply h.1
      have hk : k ∈ rest.map Prod.fst := List.mem_map_of_mem Prod.fst hb1
      rw [← ha1]
      exact hk
    · exfalso
      apply h.1
      have hk : k ∈ rest.map Prod.fst := List.mem_map_of_mem Prod.fst ha1
      rw [← hb1]
      exact hk
    · exact ih h.2 ha1 hb1

lemma mem_analyzeEvent_foldl (minProfit : ℚ) (eid : ℕ) (opp : Opportunity)
    (l : List (String × MarketData)) :
    ∀ acc : List Opportunity,
    opp ∈ l.foldl (fun acc m =>
        if 2 ≤ m.2.length then
          match calcArbitrage minProfit eid m.1 m.2 with
          | some o => acc ++ [o]
          | none => acc
        else acc) acc →
    opp ∈ acc ∨ ∃ m, m ∈ l ∧ 2 ≤ m.2.length ∧
      calcArbitrage minProfit eid m.1 m.2 = some opp := by
  induction l with
  | nil => intro acc h; exact Or.inl h
  | cons m ms ih =>
    intro acc h
    rw [List.foldl_cons] at h
    rcases ih _ h with hin | ⟨m', hm', h2', hc'⟩
    · by_cases h2 : 2 ≤ m.2.length
      · rw [if_pos h2] at hin
        cases hc : calcArbitrage minProfit eid m.1 m.2 with
        | none =>
          rw [hc] at hin
          exact Or.inl hin
        | some o =>
          rw [hc] at hin
          rcases List.mem_append.mp hin with hacc | hnew
          · exact Or.inl hacc
          · rw [List.mem_singleton] at hnew
            subst hnew
            exact Or.inr ⟨m, List.mem_cons_self m ms, h2, hc⟩
      · rw [if_neg h2] at hin
        exact Or.inl hin
    · exact Or.inr ⟨m', List.mem_cons_of_mem m hm', h2', hc'⟩

lemma mem_analyzeEvent (minProfit : ℚ) (eid : ℕ) (snaps : List Snapshot)
    (opp : Opportunity) (h : opp ∈ analyzeEvent minProfit eid snaps) :
    ∃ m, m ∈ groupOdds snaps ∧ 2 ≤ m.2.length ∧
      calcArbitrage minProfit eid m.1 m.2 = some opp := by
  unfold analyzeEvent at h
  split_ifs at h with hlen
  · cases h
  · rcases mem_analyzeEvent_foldl minProfit eid opp (groupOdds snaps) [] h with hin | hex
    · cases hin
    · exact hex

/-- C8: a market whose per-bookmaker dict has fewer than two entries is
skipped by `_analyze_event_for_arbitrage` and contributes no candidate:
no produced opportunity carries that market type. -/
theorem few_bookmakers_no_candidate (minProfit : ℚ) (eid : ℕ)
    (snaps : List Snapshot) (mkt : String) (md : MarketData)
    (hmem : (mkt, md) ∈ groupOdds snaps) (hlt : md.length < 2)
    (opp : Opportunity) (hopp : opp ∈ analyzeEvent minProfit eid snaps) :
    opp.market_type ≠ mkt := by
  intro heq
  obtain ⟨m, hm, h2, hcalc⟩ := mem_analyzeEvent minProfit eid snaps opp hopp
  have hmt : opp.market_type = m.1 :=
    calcArbitrage_market_type minProfit eid m.1 m.2 opp hcalc
  have hm1 : m.1 = mkt := by rw [← hmt, heq]
  have hmmem : (mkt, m.2) ∈ groupOdds snaps := by
    rw [← hm1]
    exact hm
  have heqmd : m.2 = md := nodup_keys_inj (groupOdds_keys_nodup snaps) hmmem hmem
  rw [heqmd] at h2
  omega

unseal Rat.add Rat.mul Rat.sub Rat.inv in
/-- C8 witness: on `snapsW` the `solo` market has one bookmaker, the `h2h`
market two; the only produced candidate is the `h2h` one. -/
theorem few_bookmakers_no_candidate_inst :
    ("solo", [("a", (⟨[("X", 5)], 0⟩ : BookEntry))]) ∈ groupOdds snapsW ∧
    ([("a", (⟨[("X", 5)], 0⟩ : BookEntry))] : MarketData).length < 2 ∧
    analyzeEvent 2 0 snapsW = [oppH] ∧
    oppH.market_type ≠ "solo" :=
  ⟨by decide, by decide, by decide,
   few_bookmakers_no_candidate 2 0 snapsW "solo" [("a", ⟨[("X", 5)], 0⟩)]
     (by decide) (by decide) oppH (by decide)⟩

/-! ## The cleanup sweep -/

lemma shouldExpire_iff (now : ℚ) (r : StoredOpp) :
    shouldExpire now r = true
      ↔ (r.expires_at ≤ now ∧ (r.status = "detected" ∨ r.status = "analyzed")) := by
  simp [shouldExpire, Bool.and_eq_true, decide_eq_true_eq, Bool.or_eq_true, beq_iff_eq]

/-- C9: the cleanup UPDATE rewrites the status of exactly the rows with
`expires_at` in the past and status detected/analyzed to "expired", keeps
every other field of every row, keeps the store's length, and leaves
"executed" rows completely untouched. -/
theorem cleanup_expires_exactly_matching (now : ℚ) (db : List StoredOpp)
    (i : ℕ) (r : StoredOpp) (h : db[i]? = some r) :
    (cleanupExpired now db).length = db.length ∧
    (cleanupExpired now db)[i]?
      = some { r with status :=
          if r.expires_at ≤ now ∧ (r.status = "detected" ∨ r.status = "analyzed")
          then "expired" else r.status } ∧
    (r.status = "executed" → (cleanupExpired now db)[i]? = some r) := by
  have hmap : (cleanupExpired now db)[i]?
      = some (if shouldExpire now r then { r with status := "expired" } else r) := by
    rw [cleanupExpired, List.getElem?_map, h, Option.map_some']
  refine ⟨by simp [cleanupExpired], ?_, ?_⟩
  · rw [hmap]
    by_cases hc : r.expires_at ≤ now ∧ (r.status = "detected" ∨ r.status = "analyzed")
    · rw [if_pos ((shouldExpire_iff now r).mpr hc), if_pos hc]
    · rw [if_neg (fun hb => hc ((shouldExpire_iff now r).mp hb)), if_neg hc]
  · intro hexec
    rw [hmap]
    have hno : shouldExpire now r = false := by
      rw [Bool.eq_false_iff]
      intro hb
      rcases ((shouldExpire_iff now r).mp hb).2 with hs | hs <;>
        · rw [hexec] at hs
          simp at hs
    rw [if_neg (by rw [hno]; exact fun hb => Bool.false_ne_true hb)]

unseal Rat.add Rat.mul Rat.sub Rat.inv in
/-- C9 witness: at time 100, a detected row with `expires_at` 50 flips to
"expired" with all other fields intact, while an executed row with the same
`expires_at` stays untouched. -/
theorem cleanup_expires_exactly_matching_inst :
    ([⟨1, "h2h", "detected", 0, 50⟩, ⟨2, "h2h", "executed", 0, 50⟩]
        : List StoredOpp)[0]? = some ⟨1, "h2h", "detected", 0, 50⟩ ∧
    (cleanupExpired 100 [⟨1, "h2h", "detected", 0, 50⟩, ⟨2, "h2h", "executed", 0, 50⟩])[0]?
      = some { (⟨1, "h2h", "detected", 0, 50⟩ : StoredOpp) with status :=
          if (50 : ℚ) ≤ 100 ∧ ("detected" = "detected" ∨ "detected" = "analyzed")
          then "expired" else "detected" } ∧
    cleanupExpired 100 [⟨1, "h2h", "detected", 0, 50⟩, ⟨2, "h2h", "executed", 0, 50⟩]
      = [⟨1, "h2h", "expired", 0, 50⟩, ⟨2, "h2h", "executed", 0, 50⟩] :=
  ⟨by decide,
   (cleanup_expires_exactly_matching 100
     [⟨1, "h2h", "detected", 0, 50⟩, ⟨2, "h2h", "executed", 0, 50⟩] 0
     ⟨1, "h2h", "detected", 0, 50⟩ (by decide)).2.1,
   by decide⟩

end ArbEngine
